import Mathlib

/-!
Verification of the field-projection / filtering engine of mcp-radarr
(src/mcp_radarr/filters.py, server.py, types.py) against its specification.

JSON-like Python values are shallowly embedded as the inductive type `Value`;
Python dicts become ordered association lists (`List (String × Value)`), which
matches CPython's insertion-ordered dicts.  Python floats do not occur in any
claim and are omitted from the model.  Fallible Python code (code that can
raise) is embedded with `Except`.
-/

/-- JSON-like value: the payloads the filtering engine operates on. -/
inductive Value where
  | vnull
  | vbool (b : Bool)
  | vint (n : Int)
  | vstr (s : String)
  | vlist (items : List Value)
  | vdict (entries : List (String × Value))
deriving Repr

abbrev Entries := List (String × Value)

/-- First-occurrence lookup in an association list (Python `d[k]` / `k in d`;
for genuine Python dicts keys are unique, so first occurrence is the value). -/
def dlookup : Entries → String → Option Value
  | [], _ => none
  | (k, v) :: rest, key => if k = key then some v else dlookup rest key

/-- Python `d[k] = v`: replace the value at the first occurrence of `k`,
keeping its position, or append `(k, v)` when `k` is absent. -/
def dictSet : Entries → String → Value → Entries
  | [], k, v => [(k, v)]
  | (k0, v0) :: rest, k, v =>
    if k0 = k then (k0, v) :: rest else (k0, v0) :: dictSet rest k v

/-- Python `k in d`. -/
def containsKey (d : Entries) (k : String) : Bool :=
  (dlookup d k).isSome

/-- Python `d.get(k, dflt)`. -/
def getD (d : Entries) (k : String) (dflt : Value) : Value :=
  (dlookup d k).getD dflt

def keysOf (d : Entries) : List String := d.map Prod.fst

def dictOf : Value → Entries
  | .vdict d => d
  | _ => []

def isStr : Value → Bool
  | .vstr _ => true
  | _ => false

/-- Python `x is None`. -/
def isNull : Value → Bool
  | .vnull => true
  | _ => false

/-- Python truthiness used by `if not data`. -/
def isFalsy : Value → Bool
  | .vnull => true
  | .vbool b => !b
  | .vint n => n == 0
  | .vstr s => s = ""
  | .vlist items => items.isEmpty
  | .vdict d => d.isEmpty

def splitDotAux : List Char → List Char → List String
  | [], acc => [String.mk acc.reverse]
  | c :: rest, acc =>
    if c = '.' then String.mk acc.reverse :: splitDotAux rest []
    else splitDotAux rest (c :: acc)

/-- Python `k.split('.')`: split on every dot; empty segments are kept. -/
def pySplitDot (s : String) : List String := splitDotAux s.data []

/-- Python `'.' in k`. -/
def hasDot (k : String) : Bool := k.data.contains '.'

def joinDot : List String → String
  | [] => ""
  | [s] => s
  | s :: rest => s ++ "." ++ joinDot rest

/-- Python `k.split('.', 1)` when `'.' in k`: head segment and remaining path
(splitting on every dot and rejoining the tail is the same as a
single-count split). -/
def splitPath (k : String) : Option (String × String) :=
  if hasDot k then
    match pySplitDot k with
    | [] => none
    | p :: ps => some (p, joinDot ps)
  else none

/-- The undotted keys of a FieldSet.  The source builds a Python `set`, whose
iteration order is implementation defined but fixed for a given set; we model
it as the first-insertion order, one fixed order consistent across calls. -/
def topLevelKeys (keys : List String) : List String :=
  keys.foldl
    (fun acc k =>
      if hasDot k then acc
      else if acc.contains k then acc else acc ++ [k])
    []

def addGroup : List (String × List String) → String → String → List (String × List String)
  | [], f, r => [(f, [r])]
  | (g, rs) :: t, f, r =>
    if g = f then (g, rs ++ [r]) :: t else (g, rs) :: addGroup t f r

/-- The dotted keys of a FieldSet, grouped by first segment in first-occurrence
order (Python `nested.setdefault(first, []).append(rest)` over an insertion
ordered dict). -/
def nestedGroups (keys : List String) : List (String × List String) :=
  keys.foldl
    (fun acc k =>
      match splitPath k with
      | some (first, rest) => addGroup acc first rest
      | none => acc)
    []

/-- Python `for all_key in data: result[all_key] = data[all_key]`
(the `'*'` direct-key branch of `filter_keys`). -/
def copyAll : Entries → Entries → Entries
  | [], res => res
  | (k, v) :: rest, res => copyAll rest (dictSet res k v)

/-- The direct-key loop of `filter_keys` (filters.py lines 24-29). -/
def applyTop (d : Entries) : List String → Entries → Entries
  | [], res => res
  | t :: rest, res =>
    if t = "*" then applyTop d rest (copyAll d res)
    else
      match dlookup d t with
      | some v => applyTop d rest (dictSet res t v)
      | none => applyTop d rest res

theorem dlookup_sizeOf {d : Entries} {k : String} {v : Value}
    (h : dlookup d k = some v) : sizeOf v < sizeOf d := by
  induction d with
  | nil => simp [dlookup] at h
  | cons hd tl ih =>
    obtain ⟨k0, v0⟩ := hd
    simp only [dlookup] at h
    by_cases hk : k0 = k
    · simp [hk] at h
      subst h
      simp
      omega
    · simp [hk] at h
      have := ih h
      simp
      omega

mutual

/-- Shallow embedding of `filter_keys` (filters.py lines 6-42).  The final
fall-through branch for scalar input is unreachable when the function is
applied to dicts or lists of dicts (the source would raise on a
non-iterable scalar); it is mapped to the empty dict. -/
def filterKeys (data : Value) (keys : List String) : Value :=
  match data with
  | .vlist items => .vlist (filterEach items keys)
  | .vdict d =>
    .vdict (applyNested d (nestedGroups keys) (applyTop d (topLevelKeys keys) []))
  | _ => .vdict []
termination_by (sizeOf data, 0)
decreasing_by
  all_goals simp_wf
  all_goals try (have hs := dlookup_sizeOf h; simp at hs)
  all_goals first
    | exact Prod.Lex.left _ _ (by omega)
    | exact Prod.Lex.right _ (by omega)

/-- `[filter_keys(item, keys) for item in data if isinstance(item, dict)]`. -/
def filterEach (items : List Value) (keys : List String) : List Value :=
  match items with
  | [] => []
  | .vdict d :: rest => filterKeys (.vdict d) keys :: filterEach rest keys
  | _ :: rest => filterEach rest keys
termination_by (sizeOf items, 0)
decreasing_by
  all_goals simp_wf
  all_goals try (have hs := dlookup_sizeOf h; simp at hs)
  all_goals first
    | exact Prod.Lex.left _ _ (by omega)
    | exact Prod.Lex.right _ (by omega)

/-- The nested-group loop of `filter_keys` (filters.py lines 30-41). -/
def applyNested (d : Entries) (groups : List (String × List String)) (res : Entries) : Entries :=
  match groups with
  | [] => res
  | (g, subs) :: rest =>
    if g = "*" then applyNested d rest (starGroup d subs res)
    else
      match h : dlookup d g with
      | some (.vdict dd) => applyNested d rest (dictSet res g (filterKeys (.vdict dd) subs))
      | some (.vlist items) => applyNested d rest (dictSet res g (.vlist (filterEach items subs)))
      | _ => applyNested d rest res
termination_by (sizeOf d, 1 + groups.length)
decreasing_by
  all_goals simp_wf
  all_goals try (have hs := dlookup_sizeOf h; simp at hs)
  all_goals first
    | exact Prod.Lex.left _ _ (by omega)
    | exact Prod.Lex.right _ (by omega)

/-- The `'*'` nested-group branch (filters.py lines 31-36): recursively filter
every dict-valued or list-valued entry. -/
def starGroup (entries : Entries) (subs : List String) (res : Entries) : Entries :=
  match entries with
  | [] => res
  | (k, .vdict dd) :: rest => starGroup rest subs (dictSet res k (filterKeys (.vdict dd) subs))
  | (k, .vlist items) :: rest => starGroup rest subs (dictSet res k (.vlist (filterEach items subs)))
  | _ :: rest => starGroup rest subs res
termination_by (sizeOf entries, 0)
decreasing_by
  all_goals simp_wf
  all_goals try (have hs := dlookup_sizeOf h; simp at hs)
  all_goals first
    | exact Prod.Lex.left _ _ (by omega)
    | exact Prod.Lex.right _ (by omega)

end

def nodupKeysB : Entries → Bool
  | [] => true
  | (k, _) :: rest => !(containsKey rest k) && nodupKeysB rest

mutual

/-- Well-formed value: every dict (at any depth) has pairwise distinct keys,
as is automatic for genuine Python dicts / parsed JSON. -/
def WFb : Value → Bool
  | .vnull => true
  | .vbool _ => true
  | .vint _ => true
  | .vstr _ => true
  | .vlist items => WFbList items
  | .vdict d => nodupKeysB d && WFbDict d
termination_by v => sizeOf v
decreasing_by
  all_goals simp_wf
  all_goals omega

def WFbList : List Value → Bool
  | [] => true
  | v :: rest => WFb v && WFbList rest
termination_by items => sizeOf items
decreasing_by
  all_goals simp_wf
  all_goals omega

def WFbDict : Entries → Bool
  | [] => true
  | (_, v) :: rest => WFb v && WFbDict rest
termination_by d => sizeOf d
decreasing_by
  all_goals simp_wf
  all_goals omega

end

mutual

/-- Python structural equality `==` restricted to the shapes that occur here:
dicts compare as unordered key-to-value maps, lists pointwise in order,
scalars by constructor and payload.  (This is finer than Python `==` only in
that Python additionally identifies `True == 1`; proving two values equal
under `pyEqb` therefore implies they are `==` in Python.) -/
def pyEqb (a b : Value) : Bool :=
  match a, b with
  | .vnull, .vnull => true
  | .vbool x, .vbool y => x == y
  | .vint x, .vint y => x == y
  | .vstr x, .vstr y => x == y
  | .vlist xs, .vlist ys => pyEqbList xs ys
  | .vdict xs, .vdict ys => pyEqbDictSub xs ys && ys.all (fun kv => containsKey xs kv.1)
  | _, _ => false
termination_by sizeOf a
decreasing_by
  all_goals simp_wf
  all_goals omega

def pyEqbList : List Value → List Value → Bool
  | [], [] => true
  | x :: xs, y :: ys => pyEqb x y && pyEqbList xs ys
  | _, _ => false
termination_by xs ys => sizeOf xs
decreasing_by
  all_goals simp_wf
  all_goals omega

/-- Every entry of the first dict is present with an equal value in the second. -/
def pyEqbDictSub : Entries → Entries → Bool
  | [], _ => true
  | (k, v) :: rest, ys =>
    (match dlookup ys k with
     | some w => pyEqb v w
     | none => false) && pyEqbDictSub rest ys
termination_by xs ys => sizeOf xs
decreasing_by
  all_goals simp_wf
  all_goals omega

end

theorem dlookup_dictSet (res : Entries) (k : String) (v : Value) (q : String) :
    dlookup (dictSet res k v) q = if k = q then some v else dlookup res q := by
  induction res with
  | nil => by_cases h : k = q <;> simp [dictSet, dlookup, h]
  | cons hd tl ih =>
    obtain ⟨k0, v0⟩ := hd
    by_cases h0 : k0 = k
    · subst h0
      by_cases hq : k0 = q <;> simp [dictSet, dlookup, hq]
    · simp only [dictSet, if_neg h0]
      by_cases hq : k0 = q
      · have hkq : ¬ k = q := fun he => h0 (hq.trans he.symm)
        simp [dlookup, hq, hkq]
      · simp [dlookup, hq, ih]

theorem dictSet_same {d : Entries} {k : String} {v : Value}
    (h : dlookup d k = some v) : dictSet d k v = d := by
  induction d with
  | nil => simp [dlookup] at h
  | cons hd tl ih =>
    obtain ⟨k0, v0⟩ := hd
    by_cases h0 : k0 = k
    · subst h0
      simp [dlookup] at h
      simp [dictSet, h]
    · simp [dlookup, h0] at h
      simp [dictSet, h0, ih h]

theorem containsKey_iff_mem {d : Entries} {k : String} :
    containsKey d k = true ↔ k ∈ keysOf d := by
  induction d with
  | nil => simp [containsKey, dlookup, keysOf]
  | cons hd tl ih =>
    obtain ⟨k0, v0⟩ := hd
    by_cases h0 : k0 = k
    · subst h0
      simp [containsKey, dlookup, keysOf]
    · simp [containsKey, dlookup, h0, keysOf] at ih ⊢
      rw [ih]
      constructor
      · exact Or.inr
      · rintro (h | h)
        · exact absurd h.symm h0
        · exact h

theorem dlookup_none_iff {d : Entries} {k : String} :
    dlookup d k = none ↔ ¬ k ∈ keysOf d := by
  rw [← containsKey_iff_mem, containsKey]
  cases dlookup d k <;> simp

/-! ## LocatorRewriter: `convert_urls_to_absolute` (filters.py lines 87-153) -/

/-- Python `value.startswith('/')`: for the one-character prefix `/` this is
exactly a first-character test. -/
def startsWithSlash (s : String) : Bool :=
  match s.data with
  | c :: _ => c = '/'
  | [] => false

/-- `convert_url_value` (filters.py lines 99-107): non-strings and the empty
string are returned unchanged; a string starting with `/` is prefixed with the
base origin; any other string gets the base origin plus a `/` separator. -/
def convert_url_value (base : String) (v : Value) : Value :=
  match v with
  | .vstr s =>
    if s = "" then .vstr s
    else if startsWithSlash s then .vstr (base ++ s)
    else .vstr (base ++ "/" ++ s)
  | _ => v

/-- `process_path` (filters.py lines 109-146).  The Python version mutates the
tree in place; since the trees are freshly parsed JSON with no aliasing, this
is the same as returning the updated tree. -/
def process_path (base : String) (data : Value) (parts : List String) : Value :=
  match parts with
  | [] => data
  | current :: remaining =>
    if isFalsy data then data
    else if remaining.isEmpty then
      if current = "*" then
        match data with
        | .vdict d =>
          .vdict (d.map (fun kv => if isStr kv.2 then (kv.1, convert_url_value base kv.2) else kv))
        | .vlist xs =>
          .vlist (xs.map (fun x => if isStr x then convert_url_value base x else x))
        | _ => data
      else
        match data with
        | .vdict d =>
          if containsKey d current then
            .vdict (dictSet d current (convert_url_value base (getD d current .vnull)))
          else data
        | _ => data
    else
      if current = "*" then
        match data with
        | .vdict d => .vdict (d.map (fun kv => (kv.1, process_path base kv.2 remaining)))
        | .vlist xs => .vlist (xs.map (fun x => process_path base x remaining))
        | _ => data
      else
        match data with
        | .vdict d =>
          match dlookup d current with
          | some v => .vdict (dictSet d current (process_path base v remaining))
          | none => data
        | _ => data
termination_by parts.length
decreasing_by
  all_goals simp_wf
  all_goals try simp [List.length_cons]
  all_goals omega

/-- `convert_urls_to_absolute` (filters.py lines 148-153): each dot-notation
key path is split on every `.` and processed in turn. -/
def convert_urls_to_absolute (base : String) (data : Value) (keys : List String) : Value :=
  keys.foldl (fun d k => process_path base d (pySplitDot k)) data

/-! ## StatusDeriver: `radarr_status` and `filter_movie` (filters.py 44-85) -/

/-- The key list of `filter_movie` (filters.py lines 45-58). -/
def movieDetailsKeys : List String :=
  ["id", "title", "originalTitle", "year", "status", "overview", "inCinemas",
   "studio", "runtime", "genres", "imdbId", "tmdbId", "certification",
   "hasFile", "path", "monitored", "qualityProfileId",
   "ratings.*.value", "ratings.*.votes",
   "images.coverType", "images.remoteUrl", "images.url",
   "movieFile.size", "movieFile.quality.name", "movieFile.languages",
   "movieFile.mediaInfo.audioChannels", "movieFile.mediaInfo.audioCodec",
   "movieFile.mediaInfo.videoDynamicRange", "movieFile.mediaInfo.subtitles",
   "popularity"]

/-- `radarr_status` (filters.py lines 79-85), as the dict that is built and
validated into `RadarrStatus` (whose config is `extra="allow"`, so the three
entries pass through). -/
def radarr_status (movie : Entries) : Value :=
  .vdict
    [("tracked", .vbool (containsKey movie "id")),
     ("monitored", getD movie "monitored" (.vbool false)),
     ("downloaded", .vbool (containsKey movie "movieFile"))]

/-- `filter_movie` (filters.py lines 44-63) up to the final pydantic
validation (`MovieDetailsFull` has `extra="allow"`): project the movie with
`movieDetailsKeys`, rewrite image URLs, then attach `radarr_status` computed
from the original unfiltered record. -/
def filter_movie_dict (base : String) (movie : Entries) : Entries :=
  dictSet
    (dictOf (convert_urls_to_absolute base (filterKeys (.vdict movie) movieDetailsKeys)
      ["images.*.url"]))
    "radarr_status" (radarr_status movie)

/-- C5: the locator rewrite rule.  A string value starting with `/` becomes
`baseOrigin ++ value`; any other non-empty string becomes
`baseOrigin ++ "/" ++ value`; the empty string, non-string values, and absent
final keys are left exactly unchanged by `process_path`. -/
theorem c5_locator_rewrite_rule (base : String) :
    (∀ s : String, startsWithSlash s = true →
      convert_url_value base (.vstr s) = .vstr (base ++ s))
    ∧ (∀ s : String, s ≠ "" → startsWithSlash s = false →
      convert_url_value base (.vstr s) = .vstr (base ++ "/" ++ s))
    ∧ convert_url_value base (.vstr "") = .vstr ""
    ∧ (∀ v : Value, isStr v = false → convert_url_value base v = v)
    ∧ (∀ (d : Entries) (k : String), k ≠ "*" → containsKey d k = false →
      process_path base (.vdict d) [k] = .vdict d)
    ∧ (∀ (d : Entries) (k : String) (v : Value), k ≠ "*" → dlookup d k = some v →
      isStr v = false → process_path base (.vdict d) [k] = .vdict d) := by
  refine ⟨?_, ?_, ?_, ?_, ?_, ?_⟩
  · intro s hs
    have hne : ¬ s = "" := by
      intro he
      subst he
      simp [startsWithSlash] at hs
    simp [convert_url_value, hne, hs]
  · intro s hne hs
    simp [convert_url_value, hne, hs]
  · simp [convert_url_value]
  · intro v hv
    cases v <;> simp_all [convert_url_value, isStr]
  · intro d k hk hc
    cases d with
    | nil => simp [process_path, isFalsy]
    | cons hd tl =>
      simp [process_path, isFalsy, hk, hc]
  · intro d k v hk hv hs
    have hc : containsKey d k = true := by simp [containsKey, hv]
    cases d with
    | nil => simp [dlookup] at hv
    | cons hd tl =>
      have hset : dictSet (hd :: tl) k (convert_url_value base (getD (hd :: tl) k .vnull)) = hd :: tl := by
        have : convert_url_value base (getD (hd :: tl) k .vnull) = v := by
          have : getD (hd :: tl) k .vnull = v := by simp [getD, hv]
          rw [this]
          cases v <;> simp_all [convert_url_value, isStr]
        rw [this]
        exact dictSet_same hv
      simp [process_path, isFalsy, hk, hc, hset]

/-- C5 witness: the rewrite rule evaluated at concrete inputs through
`c5_locator_rewrite_rule`. -/
theorem c5_locator_rewrite_rule_witness :
    convert_url_value "http://h" (.vstr "/x") = .vstr "http://h/x"
    ∧ convert_url_value "http://h" (.vstr "y.jpg") = .vstr "http://h/y.jpg"
    ∧ convert_url_value "http://h" (.vstr "") = .vstr ""
    ∧ convert_url_value "http://h" (.vint 7) = .vint 7
    ∧ process_path "http://h" (.vdict [("a", .vint 1)]) ["url"] = .vdict [("a", .vint 1)]
    ∧ process_path "http://h" (.vdict [("url", .vint 3)]) ["url"] = .vdict [("url", .vint 3)] := by
  refine ⟨?_, ?_, ?_, ?_, ?_, ?_⟩
  · exact (c5_locator_rewrite_rule "http://h").1 "/x" (by decide)
  · exact (c5_locator_rewrite_rule "http://h").2.1 "y.jpg" (by decide) (by decide)
  · exact (c5_locator_rewrite_rule "http://h").2.2.1
  · exact (c5_locator_rewrite_rule "http://h").2.2.2.1 (.vint 7) (by decide)
  · exact (c5_locator_rewrite_rule "http://h").2.2.2.2.1 [("a", .vint 1)] "url" (by decide)
      (by decide)
  · exact (c5_locator_rewrite_rule "http://h").2.2.2.2.2 [("url", .vint 3)] "url" (.vint 3)
      (by decide) (by simp [dlookup]) (by decide)

/-- C6: `radarr_status` is computed from the original source record: inside
`filter_movie` the `radarr_status` entry is exactly `radarr_status` of the
unfiltered movie; its fields are tracked = `id` present, monitored =
`movie.get("monitored", False)`, downloaded = `movieFile` present; and
`radarr_status {id:1, monitored:true}` is
`{tracked:true, monitored:true, downloaded:false}`. -/
theorem c6_radarr_status_from_source (base : String) (movie : Entries) :
    dlookup (filter_movie_dict base movie) "radarr_status" = some (radarr_status movie)
    ∧ dlookup (dictOf (radarr_status movie)) "tracked"
        = some (.vbool (containsKey movie "id"))
    ∧ dlookup (dictOf (radarr_status movie)) "monitored"
        = some (getD movie "monitored" (.vbool false))
    ∧ dlookup (dictOf (radarr_status movie)) "downloaded"
        = some (.vbool (containsKey movie "movieFile"))
    ∧ radarr_status [("id", .vint 1), ("monitored", .vbool true)]
        = .vdict [("tracked", .vbool true), ("monitored", .vbool true),
                  ("downloaded", .vbool false)] := by
  refine ⟨?_, ?_, ?_, ?_, ?_⟩
  · simp [filter_movie_dict, dlookup_dictSet]
  · simp [radarr_status, dictOf, dlookup]
  · simp [radarr_status, dictOf, dlookup]
  · simp [radarr_status, dictOf, dlookup]
  · simp [radarr_status, containsKey, getD, dlookup]

/-! ## QueryMatcher: `search_for_movie` (server.py lines 321-394) -/

/-- The Python exception kinds the matcher can raise. -/
inductive PyErr where
  | typeErr
  | valueErr
  | attrErr
deriving Repr, DecidableEq

/-- Python `int(x)`: ints pass through, bools coerce to 0/1, numeric strings
parse (ValueError otherwise), anything else (None, lists, dicts) raises
TypeError. -/
def pyIntV : Value → Except PyErr Int
  | .vint n => .ok n
  | .vbool b => .ok (if b then 1 else 0)
  | .vstr s =>
    match s.trim.toInt? with
    | some n => .ok n
    | none => .error .valueErr
  | _ => .error .typeErr

/-- ASCII lowering of a string (Python `str.lower()`; the data here is ASCII
movie metadata). -/
def lowerStr (s : String) : String := String.mk (s.data.map Char.toLower)

/-- Python `x.lower()`: AttributeError on non-strings. -/
def pyLowerV : Value → Except PyErr String
  | .vstr s => .ok (lowerStr s)
  | _ => .error .attrErr

def lowerAll : List Value → Except PyErr (List String)
  | [] => .ok []
  | v :: rest => do
    let s ← pyLowerV v
    let r ← lowerAll rest
    .ok (s :: r)

/-- Python iteration `for g in x` collecting elements, for the values the
genres comprehension can receive: lists yield elements, strings yield their
characters, dicts their keys; other values raise TypeError. -/
def pyIterStrs : Value → Except PyErr (List Value)
  | .vlist xs => .ok xs
  | .vstr s => .ok (s.data.map (fun c => .vstr (String.mk [c])))
  | .vdict d => .ok (d.map (fun kv => .vstr kv.1))
  | _ => .error .typeErr

def leadsWith : List Char → List Char → Bool
  | [], _ => true
  | _ :: _, [] => false
  | a :: as, b :: bs => a = b && leadsWith as bs

def listSubstr (sub : List Char) : List Char → Bool
  | [] => sub.isEmpty
  | c :: t => leadsWith sub (c :: t) || listSubstr sub t

/-- Python substring test `sub in hay`. -/
def strContainsSub (hay sub : String) : Bool := listSubstr sub.data hay.data

/-- Python `<=` for the value shapes compared here (ints, bools-as-ints,
strings); mixed or other types raise TypeError. -/
def pyLe : Value → Value → Except PyErr Bool
  | .vint x, .vint y => .ok (x ≤ y)
  | .vint x, .vbool b => .ok (x ≤ (if b then 1 else 0))
  | .vbool a, .vint y => .ok ((if a then 1 else 0) ≤ y)
  | .vbool a, .vbool b => .ok ((if a then 1 else 0) ≤ (if b then 1 else 0))
  | .vstr x, .vstr y => .ok (x ≤ y)
  | _, _ => .error .typeErr

/-- Evaluate the next predicate only while the running `match` flag is still
true (the `if match and ...` guards of the source). -/
def stepAnd (a : Except PyErr Bool) (f : Unit → Except PyErr Bool) : Except PyErr Bool := do
  let b ← a
  if b then f () else .ok false

/-- server.py lines 341-344: case-insensitive substring on the title. -/
def nameStep (m criteria : Entries) : Except PyErr Bool :=
  match dlookup criteria "name" with
  | none => .ok true
  | some cv => do
    let c ← pyLowerV cv
    let t ← pyLowerV (getD m "title" (.vstr ""))
    .ok (strContainsSub t c)

/-- server.py lines 345-348: `int(m.get("qualityProfileId")) != int(criteria[...])`;
the movie side is evaluated first and raises TypeError when the field is
absent (`int(None)`). -/
def qpIdStep (m criteria : Entries) : Except PyErr Bool :=
  match dlookup criteria "qualityProfileId" with
  | none => .ok true
  | some cv => do
    let mi ← pyIntV (getD m "qualityProfileId" .vnull)
    let ci ← pyIntV cv
    .ok (mi == ci)

/-- server.py lines 349-354: case-insensitive genre set intersection. -/
def genresStep (m criteria : Entries) : Except PyErr Bool :=
  match dlookup criteria "genres" with
  | none => .ok true
  | some cv => do
    let mg ← pyIterStrs (getD m "genres" (.vlist []))
    let mgl ← lowerAll mg
    let sg ← pyIterStrs cv
    let sgl ← lowerAll sg
    .ok (mgl.any (fun g => sgl.contains g))

/-- server.py lines 355-358: case-insensitive certification equality. -/
def certStep (m criteria : Entries) : Except PyErr Bool :=
  match dlookup criteria "certification" with
  | none => .ok true
  | some cv => do
    let ml ← pyLowerV (getD m "certification" (.vstr ""))
    let cl ← pyLowerV cv
    .ok (ml == cl)

/-- server.py lines 359-371: scalar year criterion is Python `==`; a dict
criterion checks each of `eq`/`gt`/`lt` that is supplied (all three `if`s run,
in this order); an absent movie year (`None`) fails a `gt`/`lt` bound without
comparing. -/
def yearStep (m criteria : Entries) : Except PyErr Bool :=
  match dlookup criteria "year" with
  | none => .ok true
  | some yc =>
    let my := getD m "year" .vnull
    match yc with
    | .vdict ycd => do
      let e := match dlookup ycd "eq" with
        | some ev => pyEqb my ev
        | none => true
      let g ← match dlookup ycd "gt" with
        | some gv =>
          if isNull my then .ok false
          else do
            let r ← pyLe my gv
            .ok (!r)
        | none => .ok true
      let l ← match dlookup ycd "lt" with
        | some lv =>
          if isNull my then .ok false
          else do
            let r ← pyLe lv my
            .ok (!r)
        | none => .ok true
      .ok (e && g && l)
    | _ => .ok (pyEqb my yc)

/-- server.py lines 373-375: `m.get("monitored") != criteria["monitored"]`. -/
def monitoredStep (m criteria : Entries) : Except PyErr Bool :=
  match dlookup criteria "monitored" with
  | none => .ok true
  | some cv => .ok (pyEqb (getD m "monitored" .vnull) cv)

/-- server.py lines 377-379: case-insensitive status equality. -/
def statusStep (m criteria : Entries) : Except PyErr Bool :=
  match dlookup criteria "status" with
  | none => .ok true
  | some cv => do
    let ml ← pyLowerV (getD m "status" (.vstr ""))
    let cl ← pyLowerV cv
    .ok (ml == cl)

/-- server.py lines 381-391: range check on `m.get("movieFile", {}).get("size")`;
an absent size fails the predicate.  A non-dict `movieFile` value (e.g. null)
raises AttributeError at `.get`; a non-dict size criterion raises TypeError at
the `"gt" in ...` membership test (for strings/lists the membership may pass
and the subsequent indexing raises). -/
def sizeStep (m criteria : Entries) : Except PyErr Bool :=
  match dlookup criteria "movieFile.size" with
  | none => .ok true
  | some sc =>
    match getD m "movieFile" (.vdict []) with
    | .vdict mfd =>
      match getD mfd "size" .vnull with
      | .vnull => .ok false
      | size =>
        match sc with
        | .vdict scd => do
          let g ← match dlookup scd "gt" with
            | some gv => do
              let r ← pyLe size gv
              .ok (!r)
            | none => .ok true
          let l ← match dlookup scd "lt" with
            | some lv => do
              let r ← pyLe lv size
              .ok (!r)
            | none => .ok true
          .ok (g && l)
        | .vstr s =>
          if strContainsSub s "gt" then .error .typeErr
          else if strContainsSub s "lt" then .error .typeErr
          else .ok true
        | .vlist xs =>
          if xs.any (fun x => pyEqb x (.vstr "gt")) then .error .typeErr
          else if xs.any (fun x => pyEqb x (.vstr "lt")) then .error .typeErr
          else .ok true
        | _ => .error .typeErr
    | _ => .error .attrErr

/-- The per-movie match of `search_for_movie` (server.py lines 339-391):
the conjunction of the eight recognized predicates, each evaluated only while
the running flag is still true; criteria keys outside the recognized eight are
never consulted. -/
def search_match (m criteria : Entries) : Except PyErr Bool :=
  stepAnd (nameStep m criteria) (fun _ =>
  stepAnd (qpIdStep m criteria) (fun _ =>
  stepAnd (genresStep m criteria) (fun _ =>
  stepAnd (certStep m criteria) (fun _ =>
  stepAnd (yearStep m criteria) (fun _ =>
  stepAnd (monitoredStep m criteria) (fun _ =>
  stepAnd (statusStep m criteria) (fun _ =>
  sizeStep m criteria)))))))

/-- Python `list(dict.fromkeys(l))`: deduplicate keeping first occurrences. -/
def dedupKeys (l : List String) : List String :=
  l.foldl (fun acc k => if acc.contains k then acc else acc ++ [k]) []

/-- `filter_movie_minimal` (filters.py lines 72-77) up to the final pydantic
validation (`MovieMinimal` has `extra="allow"`, passing all entries through):
the base keys merged with any requested extra fields, deduplicated, then
projected.  An empty include list is falsy in Python and skips the merge. -/
def filter_movie_minimal (m : Entries) (includeFields : Option (List String)) : Value :=
  let keys := ["id", "title", "year", "tmdbId"]
  let keys := match includeFields with
    | some fs => if fs.isEmpty then keys else dedupKeys (keys ++ fs)
    | none => keys
  filterKeys (.vdict m) keys

/-- The result loop of `search_for_movie` (server.py lines 338-394): every
fetched movie is matched; matches are projected with `filter_movie_minimal`;
an exception from any movie's match aborts the whole call. -/
def search_loop (criteria : Entries) (includeFields : Option (List String)) :
    List Entries → Except PyErr (List Value)
  | [] => .ok []
  | m :: rest => do
    let b ← search_match m criteria
    let r ← search_loop criteria includeFields rest
    .ok (if b then filter_movie_minimal m includeFields :: r else r)

theorem dlookup_filter (l : Entries) (p : String → Bool) (k : String) (hp : p k = true) :
    dlookup (l.filter (fun kv => p kv.1)) k = dlookup l k := by
  induction l with
  | nil => simp
  | cons hd tl ih =>
    obtain ⟨k0, v0⟩ := hd
    by_cases h0 : k0 = k
    · subst h0
      simp [List.filter_cons, hp, dlookup]
    · by_cases hpk : p k0 <;> simp [List.filter_cons, hpk, dlookup, h0, ih]

/-- The eight criteria keys `search_for_movie` recognizes. -/
def recognizedCriteria : List String :=
  ["name", "qualityProfileId", "genres", "certification", "year", "monitored",
   "status", "movieFile.size"]

/-- C3 counterexample: a criteria mapping whose only key is the unrecognized
`bogus` neither raises a validation error nor changes the match outcome: the
movie matches exactly as with empty criteria, and the overall call returns the
same ordinary result list. -/
theorem c3_unknown_key_cex :
    search_match [("title", .vstr "A")] [("bogus", .vint 1)] = .ok true
    ∧ search_match [("title", .vstr "A")] [] = .ok true
    ∧ search_loop [("bogus", .vint 1)] none [[("title", .vstr "A")]]
        = search_loop [] none [[("title", .vstr "A")]] := by
  refine ⟨?_, ?_, ?_⟩ <;>
  simp [search_loop, search_match, stepAnd, nameStep, qpIdStep, genresStep,
        certStep, yearStep, monitoredStep, statusStep, sizeStep, dlookup,
        Bind.bind, Except.bind]

/-- C3 amended: unrecognized criteria keys are silently ignored; the match is
determined entirely by the recognized keys, so deleting every unrecognized key
from the criteria never changes the outcome (and no error is raised for them). -/
theorem c3_amended_unknown_keys_ignored (m criteria : Entries) :
    search_match m (criteria.filter (fun kv => recognizedCriteria.contains kv.1))
      = search_match m criteria := by
  have h1 := dlookup_filter criteria (fun k => recognizedCriteria.contains k) "name" (by decide)
  have h2 := dlookup_filter criteria (fun k => recognizedCriteria.contains k)
    "qualityProfileId" (by decide)
  have h3 := dlookup_filter criteria (fun k => recognizedCriteria.contains k) "genres" (by decide)
  have h4 := dlookup_filter criteria (fun k => recognizedCriteria.contains k)
    "certification" (by decide)
  have h5 := dlookup_filter criteria (fun k => recognizedCriteria.contains k) "year" (by decide)
  have h6 := dlookup_filter criteria (fun k => recognizedCriteria.contains k)
    "monitored" (by decide)
  have h7 := dlookup_filter criteria (fun k => recognizedCriteria.contains k) "status" (by decide)
  have h8 := dlookup_filter criteria (fun k => recognizedCriteria.contains k)
    "movieFile.size" (by decide)
  simp only [search_match, nameStep, qpIdStep, genresStep, certStep, yearStep,
    monitoredStep, statusStep, sizeStep, h1, h2, h3, h4, h5, h6, h7, h8]

def optIntEntry (k : String) (o : Option Int) : Entries :=
  match o with
  | some n => [(k, .vint n)]
  | none => []

/-- The claim's reading of an `eq` bound: exact equality, failing when the
record year is absent and a bound is supplied. -/
def eqBoundOk : Option Int → Option Int → Bool
  | none, _ => true
  | some _, none => false
  | some ev, some yv => yv == ev

/-- The claim's reading of a `gt` bound: strictly greater, absent year fails. -/
def gtBoundOk : Option Int → Option Int → Bool
  | none, _ => true
  | some _, none => false
  | some gv, some yv => gv < yv

/-- The claim's reading of an `lt` bound: strictly less, absent year fails. -/
def ltBoundOk : Option Int → Option Int → Bool
  | none, _ => true
  | some _, none => false
  | some lv, some yv => yv < lv

theorem notDecideLe (a b : Int) : (!(decide (a ≤ b))) = decide (b < a) := by
  by_cases h : a ≤ b <;> simp [h] <;> omega

theorem yearStep_range (m : Entries) (e g l my : Option Int)
    (hmy : getD m "year" .vnull
      = (match my with | some n => Value.vint n | none => Value.vnull)) :
    yearStep m [("year", .vdict (optIntEntry "eq" e ++ optIntEntry "gt" g ++ optIntEntry "lt" l))]
      = .ok (eqBoundOk e my && gtBoundOk g my && ltBoundOk l my) := by
  rcases e with _ | ev <;> rcases g with _ | gv <;> rcases l with _ | lv <;>
    rcases my with _ | yv <;>
  simp [yearStep, dlookup, optIntEntry, hmy, eqBoundOk, gtBoundOk, ltBoundOk,
        isNull, pyLe, pyEqb, Bind.bind, Except.bind, notDecideLe]

theorem search_match_single_year (m : Entries) (yc : Value) :
    search_match m [("year", yc)] = yearStep m [("year", yc)] := by
  match hy : yearStep m [("year", yc)] with
  | .ok b =>
    cases b <;>
    simp [search_match, stepAnd, nameStep, qpIdStep, genresStep, certStep,
          monitoredStep, statusStep, sizeStep, dlookup, hy, Bind.bind, Except.bind]
  | .error e =>
    simp [search_match, stepAnd, nameStep, qpIdStep, genresStep, certStep,
          monitoredStep, statusStep, sizeStep, dlookup, hy, Bind.bind, Except.bind]

/-- C7: the year criterion.  A scalar criterion matches iff the record year
equals it under Python `==`; a range object matches iff every supplied bound
holds, with `gt`/`lt` strict and `eq` exact, an absent record year failing any
`gt`/`lt` bound; and the Matrix scenario matches. -/
theorem c7_year_criterion (m : Entries) :
    (∀ y : Int, search_match m [("year", .vint y)]
      = .ok (pyEqb (getD m "year" .vnull) (.vint y)))
    ∧ (∀ e g l my : Option Int,
        getD m "year" .vnull
          = (match my with | some n => Value.vint n | none => Value.vnull) →
        search_match m
            [("year", .vdict (optIntEntry "eq" e ++ optIntEntry "gt" g ++ optIntEntry "lt" l))]
          = .ok (eqBoundOk e my && gtBoundOk g my && ltBoundOk l my))
    ∧ search_match
        [("title", .vstr "The Matrix"), ("year", .vint 1999), ("genres", .vlist [.vstr "Action"])]
        [("year", .vdict [("gt", .vint 1990), ("lt", .vint 2000)]),
         ("genres", .vlist [.vstr "action"])]
        = .ok true := by
  refine ⟨?_, ?_, ?_⟩
  · intro y
    rw [search_match_single_year]
    simp [yearStep, dlookup]
  · intro e g l my hmy
    rw [search_match_single_year, yearStep_range m e g l my hmy]
  · simp [search_match, stepAnd, nameStep, qpIdStep, genresStep, certStep, yearStep,
          monitoredStep, statusStep, sizeStep, dlookup, Bind.bind, Except.bind,
          getD, pyIterStrs, lowerAll, pyLowerV, lowerStr, isNull, pyLe, pyEqb]

/-- C7 witness: the range conjunct of `c7_year_criterion` applied to a record
with year 1999 and bounds gt 1990, lt 2000. -/
theorem c7_year_criterion_witness :
    search_match [("year", .vint 1999)]
        [("year", .vdict (optIntEntry "eq" none ++ optIntEntry "gt" (some 1990)
          ++ optIntEntry "lt" (some 2000)))]
      = .ok (eqBoundOk none (some 1999) && gtBoundOk (some 1990) (some 1999)
          && ltBoundOk (some 2000) (some 1999)) :=
  (c7_year_criterion [("year", .vint 1999)]).2.1 none (some 1990) (some 2000) (some 1999)
    (by simp [getD, dlookup])

theorem search_match_qpid_missing (criteria m0 : Entries) (cv : Value)
    (hname : nameStep m0 criteria = .ok true)
    (hq : dlookup criteria "qualityProfileId" = some cv)
    (hmissing : dlookup m0 "qualityProfileId" = none) :
    search_match m0 criteria = .error .typeErr := by
  simp [search_match, stepAnd, hname, qpIdStep, hq, getD, hmissing,
        pyIntV, Bind.bind, Except.bind]

/-- C10 counterexample: the claim's universal over every criteria mapping
containing `qualityProfileId` is false: with a `name` criterion that fails
first, server.py line 346's `if match and ...` guard skips the
`qualityProfileId` check, so a record lacking the field causes no exception
and the call returns normally. -/
theorem c10_qpid_skipped_cex :
    search_loop [("name", .vstr "zzz"), ("qualityProfileId", .vint 1)] none
        [[("title", .vstr "A")]]
      = .ok [] := by
  simp [search_loop, search_match, stepAnd, nameStep, qpIdStep, genresStep,
        certStep, yearStep, monitoredStep, statusStep, sizeStep, dlookup, getD,
        pyLowerV, lowerStr, strContainsSub, listSubstr, leadsWith,
        Bind.bind, Except.bind]

/-- C10 amended: the matcher is not total on `qualityProfileId` for every
record that reaches the check: when the criteria contain it and a fetched
record lacks the field AND passes the preceding name predicate (the only
check evaluated before it; in particular whenever no `name` criterion is
supplied), `search_for_movie` raises (`int(None)` is a TypeError) instead of
treating the record as a non-match; a record already rejected by the name
predicate skips the check and raises nothing. -/
theorem c10_missing_qpid_raises (movies : List Entries) (criteria m0 : Entries)
    (iF : Option (List String)) (cv : Value)
    (hm : m0 ∈ movies)
    (hname : nameStep m0 criteria = .ok true)
    (hq : dlookup criteria "qualityProfileId" = some cv)
    (hmissing : dlookup m0 "qualityProfileId" = none) :
    ∃ e : PyErr, search_loop criteria iF movies = .error e := by
  induction movies with
  | nil => cases hm
  | cons m rest ih =>
    match hsm : search_match m criteria with
    | .error e2 =>
      exact ⟨e2, by simp [search_loop, hsm, Bind.bind, Except.bind]⟩
    | .ok b =>
      rcases List.mem_cons.1 hm with he | hrest
      · subst he
        rw [search_match_qpid_missing criteria m0 cv hname hq hmissing] at hsm
        cases hsm
      · obtain ⟨e, he⟩ := ih hrest
        exact ⟨e, by simp [search_loop, hsm, he, Bind.bind, Except.bind]⟩

/-- C10 witness: a concrete library with one movie lacking `qualityProfileId`
(and no name criterion, so the record reaches the check) makes the search
raise. -/
theorem c10_missing_qpid_raises_witness :
    ∃ e : PyErr,
      search_loop [("qualityProfileId", .vint 1)] none [[("title", .vstr "A")]]
        = .error e :=
  c10_missing_qpid_raises [[("title", .vstr "A")]] [("qualityProfileId", .vint 1)]
    [("title", .vstr "A")] none (.vint 1) (by simp)
    (by simp [nameStep, dlookup]) (by simp [dlookup]) (by simp [dlookup])

/-! ## editMovies: `edit_movie` (server.py lines 263-319) -/

/-- A `RadarrError` raised by `api.request` (status >= 400 responses). -/
structure RadarrE where
  status : Int
  payload : Value

/-- The exceptions the `edit_movie` try-block can raise. -/
inductive EditErr where
  | radarr (e : RadarrE)
  | keyErr (k : String)
  | typeErr

/-- The `ToolResponse` pydantic model (server.py lines 19-21). -/
structure ToolResponse where
  isError : Option Bool
  content : Value

/-- The remote capability interface `edit_movie` consumes: GET `movie/{id}`,
GET `tag/{id}`, `get_quality_profiles`, and PUT `movie/editor`. -/
structure EditEnv where
  movieReq : Value → Except RadarrE Value
  tagReq : Value → Except RadarrE Value
  profilesReq : Except RadarrE (List Value)
  editorReq : Entries → Except RadarrE Value

/-- The allow-list of editable fields (server.py line 280). -/
def allowedEditFields : List String :=
  ["movieIds", "monitored", "qualityProfileId", "minimumAvailability", "tags", "applyTags"]

/-- Rendering of an id into the f-string error messages; the exact text is
immaterial to the claims. -/
def pyRender : Value → String
  | .vint n => toString n
  | .vstr s => s
  | _ => ""

def isList : Value → Bool
  | .vlist _ => true
  | _ => false

/-- server.py lines 289-292: fetch each movie id; a falsy response reports the
offending id (fail fast on the first invalid one). -/
def checkMovieIds (env : EditEnv) : List Value → Except EditErr (Option ToolResponse)
  | [] => .ok none
  | i :: rest => do
    let movie ← (env.movieReq i).mapError EditErr.radarr
    if isFalsy movie then
      .ok (some ⟨some true, .vstr ("Movie with ID " ++ pyRender i ++ " not found.")⟩)
    else checkMovieIds env rest

/-- server.py lines 297-300: fetch each tag id. -/
def checkTagIds (env : EditEnv) : List Value → Except EditErr (Option ToolResponse)
  | [] => .ok none
  | i :: rest => do
    let tag ← (env.tagReq i).mapError EditErr.radarr
    if isFalsy tag then
      .ok (some ⟨some true, .vstr ("Tag with ID " ++ pyRender i ++ " not found.")⟩)
    else checkTagIds env rest

def isApplyTagsOk : Value → Bool
  | .vstr s => s = "replace" || s = "add" || s = "remove"
  | _ => false

/-- server.py lines 302-315: the tail of the try-block after the tag loop.
The `qualityProfileId` branch calls `get_quality_profiles`, which returns
pydantic objects; `p["id"]` on a pydantic BaseModel raises TypeError, so with
a nonempty profile list that branch always raises. -/
def editAfterTags (env : EditEnv) (edits : Entries) : Except EditErr ToolResponse := do
  if containsKey edits "applyTags" && !(isApplyTagsOk (getD edits "applyTags" .vnull)) then
    .ok ⟨some true, .vstr "applyTags must be replace, add, or remove"⟩
  else if containsKey edits "qualityProfileId" then do
    let profiles ← env.profilesReq.mapError EditErr.radarr
    if profiles.isEmpty then
      .ok ⟨some true, .vstr "No quality profiles found."⟩
    else .error .typeErr
  else do
    let result ← (env.editorReq edits).mapError EditErr.radarr
    .ok ⟨some false, result⟩

/-- The try-block of `edit_movie` (server.py lines 278-315).  Note line 297:
`for tagId in edits["tags"]` runs unconditionally after the optional type
check of line 295, so a missing `tags` key raises KeyError. -/
def edit_movie_body (env : EditEnv) (edits : Entries) : Except EditErr ToolResponse :=
  match edits.find? (fun kv => !(allowedEditFields.contains kv.1)) with
  | some kv => .ok ⟨some true, .vstr ("Invalid field: " ++ kv.1)⟩
  | none =>
    if !(containsKey edits "movieIds") then
      .ok ⟨some true, .vstr "Missing required field: movieIds"⟩
    else
      match getD edits "movieIds" .vnull with
      | .vlist ids => do
        match ← checkMovieIds env ids with
        | some r => .ok r
        | none =>
          if containsKey edits "tags" && !(isList (getD edits "tags" .vnull)) then
            .ok ⟨some true, .vstr "tags must be a list of tag IDs"⟩
          else
            match dlookup edits "tags" with
            | none => .error (.keyErr "tags")
            | some (.vlist tags) => do
              match ← checkTagIds env tags with
              | some r => .ok r
              | none => editAfterTags env edits
            | some _ => .error .typeErr
      | _ => .ok ⟨some true, .vstr "movieIds must be a list of movie IDs"⟩

/-- `edit_movie` (server.py lines 263-319): the try-block with its two
exception handlers, both of which return an error ToolResponse (the handler
messages stand in for `str(e)`). -/
def edit_movie (env : EditEnv) (edits : Entries) : ToolResponse :=
  match edit_movie_body env edits with
  | .ok r => r
  | .error (.radarr e) =>
    ⟨some true, .vdict [("error", .vstr "RadarrError"), ("details", e.payload)]⟩
  | .error (.keyErr k) => ⟨some true, .vdict [("error", .vstr ("KeyError: " ++ k))]⟩
  | .error .typeErr => ⟨some true, .vdict [("error", .vstr "TypeError")]⟩

theorem checkMovieIds_all_ok (env : EditEnv) (ids : List Value)
    (hok : ∀ i ∈ ids, ∃ mv, env.movieReq i = .ok mv ∧ isFalsy mv = false) :
    checkMovieIds env ids = .ok none := by
  induction ids with
  | nil => simp [checkMovieIds]
  | cons i rest ih =>
    obtain ⟨mv, h1, h2⟩ := hok i (List.mem_cons_self i rest)
    have ihr := ih (fun j hj => hok j (List.mem_cons_of_mem i hj))
    simp [checkMovieIds, h1, h2, ihr, Bind.bind, Except.bind, Except.mapError]

/-- C2 (code bug): with every edit key allow-listed, a `movieIds` list whose
ids all resolve to truthy remote movies, and no `tags` key, `edit_movie` does
not proceed to the remote edit: line 297 evaluates `edits["tags"]`
unconditionally, raising KeyError, and the generic handler returns
`isError=true` — contradicting the docstring "Only movieIds and the fields
being changed need to be specified". -/
theorem c2_edit_movie_tags_keyerror (env : EditEnv) (edits : Entries) (ids : List Value)
    (hallow : edits.all (fun kv => allowedEditFields.contains kv.1) = true)
    (hids : dlookup edits "movieIds" = some (.vlist ids))
    (hok : ∀ i ∈ ids, ∃ mv, env.movieReq i = .ok mv ∧ isFalsy mv = false)
    (hnotags : dlookup edits "tags" = none) :
    edit_movie env edits
      = ⟨some true, .vdict [("error", .vstr "KeyError: tags")]⟩ := by
  have hfind : edits.find? (fun kv => !(decide (kv.1 ∈ allowedEditFields))) = none := by
    rw [List.find?_eq_none]
    intro kv hkv
    have h2 := (List.all_eq_true.1 hallow) kv hkv
    simp at h2 ⊢
    exact h2
  have hcontains : containsKey edits "movieIds" = true := by
    simp [containsKey, hids]
  have hmv := checkMovieIds_all_ok env ids hok
  have hnotags2 : containsKey edits "tags" = false := by
    simp [containsKey, hnotags]
  simp [edit_movie, edit_movie_body, hfind, hcontains, getD, hids, hmv, hnotags,
        hnotags2, Bind.bind, Except.bind]

/-- C2 witness: a concrete environment where movie 1 exists and the edits are
exactly `{movieIds: [1]}`. -/
theorem c2_edit_movie_tags_keyerror_witness :
    edit_movie
      ⟨fun _ => .ok (.vdict [("id", .vint 1)]), fun _ => .ok (.vdict []),
       .ok [], fun _ => .ok .vnull⟩
      [("movieIds", .vlist [.vint 1])]
      = ⟨some true, .vdict [("error", .vstr "KeyError: tags")]⟩ :=
  c2_edit_movie_tags_keyerror
    ⟨fun _ => .ok (.vdict [("id", .vint 1)]), fun _ => .ok (.vdict []),
     .ok [], fun _ => .ok .vnull⟩
    [("movieIds", .vlist [.vint 1])] [.vint 1]
    (by decide) (by simp [dlookup])
    (by
      intro i hi
      exact ⟨.vdict [("id", .vint 1)], rfl, by simp [isFalsy]⟩)
    (by simp [dlookup])

/-! ## SchemaValidator extensibility modes (types.py, pydantic `extra`) -/

/-- The three extensibility modes of the spec's SchemaValidator.  `allowMode`
is pydantic `extra="allow"` (keep unknown fields), `ignoreMode` is
`extra="ignore"` (drop them); `forbidMode` is Modelled from the spec:
section 4.5's `closed` mode raising a SchemaError listing every unrecognized
key — no model in the code configures it (pydantic `extra="forbid"` is unused). -/
inductive ExtraMode where
  | allowMode
  | ignoreMode
  | forbidMode

/-- Validation of a record against a schema's declared field names under an
extensibility mode (the type-coercion part of pydantic validation is not
involved in the claim). -/
def validateExtra (mode : ExtraMode) (declared : List String) (d : Entries) :
    Except (List String) Entries :=
  match mode with
  | .allowMode => .ok d
  | .ignoreMode => .ok (d.filter (fun kv => declared.contains kv.1))
  | .forbidMode =>
    let unknown := d.filter (fun kv => !(declared.contains kv.1))
    if unknown.isEmpty then .ok d else .error (keysOf unknown)

/-- The declared fields of `MovieDetailsFull` (types.py lines 147-186). -/
def movieDetailsFullFields : List String :=
  ["id", "title", "originalTitle", "sortTitle", "year", "status", "overview",
   "inCinemas", "physicalRelease", "digitalRelease", "studio", "runtime",
   "genres", "tags", "imdbId", "tmdbId", "titleSlug", "cleanTitle",
   "certification", "hasFile", "path", "folderName", "folder", "monitored",
   "qualityProfileId", "website", "remotePoster", "youTubeTrailerId",
   "originalLanguage", "alternateTitles", "secondaryYearSourceId", "added",
   "ratings", "images", "movieFile", "popularity", "radarr_status"]

/-- The extensibility mode `MovieDetailsFull` actually configures
(types.py line 148: `model_config = ConfigDict(extra="allow")`). -/
def movieDetailsFullMode : ExtraMode := .allowMode

/-- C8 counterexample: validating `{title:"A", bogus:1}` with the mode the
code configures for projected records (`extra="allow"`) succeeds and keeps
`bogus` verbatim, instead of failing with a SchemaError naming it. -/
theorem c8_closed_mode_cex :
    validateExtra movieDetailsFullMode movieDetailsFullFields
        [("title", .vstr "A"), ("bogus", .vint 1)]
      = .ok [("title", .vstr "A"), ("bogus", .vint 1)] := rfl

/-- C8 amended: the schema validation the code applies to projected records is
open (`extra="allow"`): it accepts every record unchanged and never rejects
unknown keys.  Closed-mode rejection naming the unknown keys is what the
spec-modelled `forbidMode` would do, but no schema in the code uses it. -/
theorem c8_amended_validation_keeps_unknown :
    (∀ d : Entries,
      validateExtra movieDetailsFullMode movieDetailsFullFields d = .ok d)
    ∧ validateExtra .forbidMode ["title"] [("title", .vstr "A"), ("bogus", .vint 1)]
        = .error ["bogus"] := by
  refine ⟨fun d => rfl, ?_⟩
  simp [validateExtra, keysOf]

/-! ## Characterization of `filter_keys` output (for the projection claims) -/

/-- Left-biased choice on optional values. -/
def oelse : Option Value → Option Value → Option Value
  | some v, _ => some v
  | none, b => b

@[simp] theorem oelse_none (b : Option Value) : oelse none b = b := rfl

@[simp] theorem oelse_some (v : Value) (b : Option Value) : oelse (some v) b = some v := rfl

@[simp] theorem oelse_none_right (a : Option Value) : oelse a none = a := by
  cases a <;> rfl

/-- How a nested group transforms the value it is applied to: dicts and lists
are recursively filtered, scalars produce no write. -/
def filtSub (v : Value) (subs : List String) : Option Value :=
  match v with
  | .vdict dd => some (filterKeys (.vdict dd) subs)
  | .vlist items => some (.vlist (filterEach items subs))
  | _ => none

/-- The value the direct-key loop leaves at key `q`: the record's value when
`q` is copied by the wildcard or listed as a direct key, else nothing. -/
def topW (x : Entries) (T : List String) (q : String) : Option Value :=
  if T.contains "*" || T.contains q then dlookup x q else none

/-- The sub-paths of the LAST group that writes key `q` (a later group's
`dictSet` overwrites an earlier one's). -/
def lastSub : List (String × List String) → String → Option (List String)
  | [], _ => none
  | (g, subs) :: rest, q =>
    match lastSub rest q with
    | some s => some s
    | none => if g = "*" || g = q then some subs else none

/-- The value the nested-group loop leaves at key `q`. -/
def nestedW (x : Entries) (G : List (String × List String)) (q : String) : Option Value :=
  match G with
  | [] => none
  | (g, subs) :: rest =>
    oelse (nestedW x rest q)
      (if g = "*" || g = q then (dlookup x q).bind (fun v => filtSub v subs) else none)

theorem filtSub_none_congr (v : Value) (s1 s2 : List String)
    (h : filtSub v s1 = none) : filtSub v s2 = none := by
  cases v <;> simp [filtSub] at h ⊢

/-- Whether a group writes `q` depends only on the value's shape, so the last
write wins and `nestedW` collapses to the last mentioning group's transform. -/
theorem nestedW_shape (x : Entries) (G : List (String × List String)) (q : String) :
    nestedW x G q
      = (dlookup x q).bind (fun v => (lastSub G q).bind (fun s => filtSub v s)) := by
  induction G with
  | nil => cases dlookup x q <;> simp [nestedW, lastSub]
  | cons hd rest ih =>
    obtain ⟨g, subs⟩ := hd
    rw [nestedW, ih]
    cases hdq : dlookup x q with
    | none => cases hc : (g = "*" || g = q) <;> simp [lastSub, oelse, hc] <;>
        cases lastSub rest q <;> simp
    | some v =>
      cases hls : lastSub rest q with
      | some s =>
        cases hfs : filtSub v s with
        | some w => simp [lastSub, hls, hfs]
        | none =>
          have h2 := filtSub_none_congr v s subs hfs
          cases hc : (g = "*" || g = q) <;> simp [lastSub, hls, hc, hfs, h2]
      | none =>
        cases hc : (g = "*" || g = q) <;> simp [lastSub, hls, hc]

theorem nodupKeysB_cons {k0 : String} {v0 : Value} {tl : Entries}
    (h : nodupKeysB ((k0, v0) :: tl) = true) :
    containsKey tl k0 = false ∧ nodupKeysB tl = true := by
  simp [nodupKeysB] at h
  exact ⟨h.1, h.2⟩

theorem dlookup_eq_none_of_not_contains {tl : Entries} {k : String}
    (h : containsKey tl k = false) : dlookup tl k = none := by
  cases hdk : dlookup tl k with
  | none => rfl
  | some w => simp [containsKey, hdk] at h

theorem dlookup_copyAll (x : Entries) (hx : nodupKeysB x = true)
    (res : Entries) (q : String) :
    dlookup (copyAll x res) q = oelse (dlookup x q) (dlookup res q) := by
  induction x generalizing res with
  | nil => simp [copyAll, dlookup]
  | cons hd tl ih =>
    obtain ⟨k0, v0⟩ := hd
    obtain ⟨hnc, hnd⟩ := nodupKeysB_cons hx
    rw [copyAll, ih hnd]
    by_cases hq : k0 = q
    · subst hq
      have h0 : dlookup tl k0 = none := dlookup_eq_none_of_not_contains hnc
      simp [h0, dlookup, dlookup_dictSet]
    · simp [dlookup, hq, dlookup_dictSet]

theorem oelse_topW_absorb (x : Entries) (T : List String) (q : String) (v : Value)
    (h : dlookup x q = some v) : oelse (topW x T q) (some v) = some v := by
  unfold topW
  split
  · rw [h]
    rfl
  · rfl

theorem topW_star (x : Entries) (rest : List String) (q : String) :
    topW x ("*" :: rest) q = dlookup x q := by
  simp [topW]

theorem topW_cons_self (x : Entries) (t : String) (rest : List String) :
    topW x (t :: rest) t = dlookup x t := by
  simp [topW]

theorem topW_cons_ne (x : Entries) (t : String) (rest : List String) (q : String)
    (ht : t ≠ "*") (hq : t ≠ q) : topW x (t :: rest) q = topW x rest q := by
  have h1 : ¬ ("*" = t) := fun h => ht h.symm
  have h2 : ¬ (q = t) := fun h => hq h.symm
  simp [topW, List.contains_cons, h1, h2]

theorem topW_none_of_lookup_none (x : Entries) (T : List String) (q : String)
    (h : dlookup x q = none) : topW x T q = none := by
  unfold topW
  split <;> simp [h]

theorem dlookup_applyTop (x : Entries) (hx : nodupKeysB x = true)
    (T : List String) (res : Entries) (q : String) :
    dlookup (applyTop x T res) q = oelse (topW x T q) (dlookup res q) := by
  induction T generalizing res with
  | nil => simp [applyTop, topW]
  | cons t rest ih =>
    by_cases ht : t = "*"
    · subst ht
      rw [applyTop, if_pos rfl, ih, dlookup_copyAll x hx, topW_star]
      cases hdx : dlookup x q with
      | none => simp [hdx, topW_none_of_lookup_none x rest q hdx]
      | some v =>
        simp only [hdx, oelse_some]
        exact oelse_topW_absorb x rest q v hdx
    · rw [applyTop, if_neg ht]
      by_cases hq : t = q
      · subst hq
        rw [topW_cons_self]
        cases hdt : dlookup x t with
        | some v =>
          simp only [hdt, ih, dlookup_dictSet, if_pos rfl, oelse_some]
          exact oelse_topW_absorb x rest t v hdt
        | none =>
          simp only [hdt, ih, oelse_none, topW_none_of_lookup_none x rest t hdt]
      · rw [topW_cons_ne x t rest q ht hq]
        cases hdt : dlookup x t with
        | some v => simp only [hdt, ih, dlookup_dictSet, if_neg hq]
        | none => simp only [hdt, ih]

theorem starGroup_cons (k0 : String) (v0 : Value) (rest : Entries)
    (subs : List String) (res : Entries) :
    starGroup ((k0, v0) :: rest) subs res
      = starGroup rest subs
          (match filtSub v0 subs with
           | some w => dictSet res k0 w
           | none => res) := by
  cases v0 <;> simp [starGroup, filtSub]

theorem dlookup_starGroup (x : Entries) (hx : nodupKeysB x = true)
    (subs : List String) (res : Entries) (q : String) :
    dlookup (starGroup x subs res) q
      = oelse ((dlookup x q).bind (fun v => filtSub v subs)) (dlookup res q) := by
  induction x generalizing res with
  | nil => simp [starGroup, dlookup]
  | cons hd tl ih =>
    obtain ⟨k0, v0⟩ := hd
    obtain ⟨hnc, hnd⟩ := nodupKeysB_cons hx
    rw [starGroup_cons, ih hnd]
    by_cases hq : k0 = q
    · subst hq
      have h0 : dlookup tl k0 = none := dlookup_eq_none_of_not_contains hnc
      cases hfs : filtSub v0 subs with
      | some w => simp [h0, dlookup, hfs, dlookup_dictSet]
      | none => simp [h0, dlookup, hfs]
    · cases hfs : filtSub v0 subs with
      | some w => simp [dlookup, hq, hfs, dlookup_dictSet]
      | none => simp [dlookup, hq, hfs]

theorem dlookup_applyNested (x : Entries) (hx : nodupKeysB x = true)
    (G : List (String × List String)) (res : Entries) (q : String) :
    dlookup (applyNested x G res) q = oelse (nestedW x G q) (dlookup res q) := by
  induction G generalizing res with
  | nil => simp [applyNested, nestedW]
  | cons hd rest ih =>
    obtain ⟨g, subs⟩ := hd
    by_cases hg : g = "*"
    · subst hg
      rw [applyNested, if_pos rfl, ih, dlookup_starGroup x hx]
      rw [show nestedW x (("*", subs) :: rest) q
        = oelse (nestedW x rest q) ((dlookup x q).bind (fun v => filtSub v subs)) from by
          simp [nestedW]]
      cases nestedW x rest q <;> simp
    · rw [applyNested, if_neg hg]
      have hshape : nestedW x ((g, subs) :: rest) q
          = oelse (nestedW x rest q)
              (if g = q then (dlookup x q).bind (fun v => filtSub v subs) else none) := by
        simp [nestedW, hg]
      rw [hshape]
      by_cases hq : g = q
      · subst hq
        cases hdt : dlookup x g with
        | some v =>
          cases v <;>
            simp [hdt, ih, dlookup_dictSet, filtSub] <;>
            cases nestedW x rest g <;> simp
        | none => simp [hdt, ih]
      · cases hdt : dlookup x g with
        | some v =>
          cases v <;>
            simp [hdt, ih, dlookup_dictSet, hq] <;>
            cases nestedW x rest q <;> simp
        | none => simp [hdt, ih, hq]

/-- Central characterization: the value `filter_keys` leaves at key `q` is the
last nested-group write, or failing that the direct-key copy. -/
theorem filterKeys_dict_lookup (d : Entries) (hnd : nodupKeysB d = true)
    (F : List String) (q : String) :
    dlookup (dictOf (filterKeys (.vdict d) F)) q
      = oelse (nestedW d (nestedGroups F) q) (topW d (topLevelKeys F) q) := by
  rw [show dictOf (filterKeys (.vdict d) F)
      = applyNested d (nestedGroups F) (applyTop d (topLevelKeys F) []) from by
    simp [filterKeys, dictOf]]
  rw [dlookup_applyNested d hnd, dlookup_applyTop d hnd]
  simp [dlookup]

theorem containsKey_dictSet (res : Entries) (k : String) (v : Value) (q : String) :
    containsKey (dictSet res k v) q = if k = q then true else containsKey res q := by
  simp only [containsKey, dlookup_dictSet]
  split <;> rfl

theorem nodup_dictSet (res : Entries) (k : String) (v : Value)
    (h : nodupKeysB res = true) : nodupKeysB (dictSet res k v) = true := by
  induction res with
  | nil => simp [dictSet, nodupKeysB, containsKey, dlookup]
  | cons hd tl ih =>
    obtain ⟨k0, v0⟩ := hd
    obtain ⟨hnc, hnd⟩ := nodupKeysB_cons h
    by_cases h0 : k0 = k
    · subst h0
      simp [dictSet, nodupKeysB, hnc, hnd]
    · simp only [dictSet, if_neg h0, nodupKeysB, containsKey_dictSet]
      have hkk : ¬ k = k0 := fun he => h0 he.symm
      simp [hkk, hnc, ih hnd]

theorem nodup_copyAll (x : Entries) (res : Entries)
    (h : nodupKeysB res = true) : nodupKeysB (copyAll x res) = true := by
  induction x generalizing res with
  | nil => simpa [copyAll]
  | cons hd tl ih =>
    obtain ⟨k0, v0⟩ := hd
    exact ih (dictSet res k0 v0) (nodup_dictSet res k0 v0 h)

theorem nodup_applyTop (x : Entries) (T : List String) (res : Entries)
    (h : nodupKeysB res = true) : nodupKeysB (applyTop x T res) = true := by
  induction T generalizing res with
  | nil => simpa [applyTop]
  | cons t rest ih =>
    by_cases ht : t = "*"
    · subst ht
      rw [applyTop, if_pos rfl]
      exact ih _ (nodup_copyAll x res h)
    · rw [applyTop, if_neg ht]
      cases dlookup x t with
      | some v => exact ih _ (nodup_dictSet res t v h)
      | none => exact ih _ h

theorem nodup_starGroup (x : Entries) (subs : List String) (res : Entries)
    (h : nodupKeysB res = true) : nodupKeysB (starGroup x subs res) = true := by
  induction x generalizing res with
  | nil => simpa [starGroup]
  | cons hd tl ih =>
    obtain ⟨k0, v0⟩ := hd
    rw [starGroup_cons]
    cases filtSub v0 subs with
    | some w => exact ih _ (nodup_dictSet res k0 w h)
    | none => exact ih _ h

theorem nodup_applyNested (x : Entries) (G : List (String × List String))
    (res : Entries) (h : nodupKeysB res = true) :
    nodupKeysB (applyNested x G res) = true := by
  induction G generalizing res with
  | nil => simpa [applyNested]
  | cons hd rest ih =>
    obtain ⟨g, subs⟩ := hd
    by_cases hg : g = "*"
    · subst hg
      rw [applyNested, if_pos rfl]
      exact ih _ (nodup_starGroup x subs res h)
    · rw [applyNested, if_neg hg]
      cases dlookup x g with
      | some v =>
        cases v <;> first
          | exact ih _ (nodup_dictSet res g _ h)
          | exact ih _ h
      | none => exact ih _ h

/-- The output of `filter_keys` on a dict has pairwise distinct keys. -/
theorem nodup_filterKeys_dict (d : Entries) (F : List String) :
    nodupKeysB (dictOf (filterKeys (.vdict d) F)) = true := by
  rw [show dictOf (filterKeys (.vdict d) F)
      = applyNested d (nestedGroups F) (applyTop d (topLevelKeys F) []) from by
    simp [filterKeys, dictOf]]
  exact nodup_applyNested _ _ _ (nodup_applyTop _ _ _ (by simp [nodupKeysB]))

theorem keysOf_dictSet_ext (res : Entries) (k : String) (v : Value) :
    ∃ e, keysOf (dictSet res k v) = keysOf res ++ e := by
  induction res with
  | nil => exact ⟨[k], rfl⟩
  | cons hd tl ih =>
    obtain ⟨k0, v0⟩ := hd
    by_cases h0 : k0 = k
    · exact ⟨[], by simp [dictSet, h0, keysOf]⟩
    · obtain ⟨e, he⟩ := ih
      exact ⟨e, by simp [dictSet, h0, keysOf] at he ⊢; exact he⟩

theorem keysOf_starGroup_ext (x : Entries) (subs : List String) (res : Entries) :
    ∃ e, keysOf (starGroup x subs res) = keysOf res ++ e := by
  induction x generalizing res with
  | nil => exact ⟨[], by simp [starGroup]⟩
  | cons hd tl ih =>
    obtain ⟨k0, v0⟩ := hd
    rw [starGroup_cons]
    cases filtSub v0 subs with
    | some w =>
      obtain ⟨e1, he1⟩ := keysOf_dictSet_ext res k0 w
      obtain ⟨e2, he2⟩ := ih (dictSet res k0 w)
      exact ⟨e1 ++ e2, by rw [he2, he1, List.append_assoc]⟩
    | none => exact ih res

theorem keysOf_applyNested_ext (x : Entries) (G : List (String × List String))
    (res : Entries) : ∃ e, keysOf (applyNested x G res) = keysOf res ++ e := by
  induction G generalizing res with
  | nil => exact ⟨[], by simp [applyNested]⟩
  | cons hd rest ih =>
    obtain ⟨g, subs⟩ := hd
    by_cases hg : g = "*"
    · subst hg
      rw [applyNested, if_pos rfl]
      obtain ⟨e1, he1⟩ := keysOf_starGroup_ext x subs res
      obtain ⟨e2, he2⟩ := ih (starGroup x subs res)
      exact ⟨e1 ++ e2, by rw [he2, he1, List.append_assoc]⟩
    · rw [applyNested, if_neg hg]
      cases dlookup x g with
      | some v =>
        cases v with
        | vdict dd =>
          obtain ⟨e1, he1⟩ := keysOf_dictSet_ext res g (filterKeys (.vdict dd) subs)
          obtain ⟨e2, he2⟩ := ih (dictSet res g (filterKeys (.vdict dd) subs))
          exact ⟨e1 ++ e2, by rw [he2, he1, List.append_assoc]⟩
        | vlist items =>
          obtain ⟨e1, he1⟩ := keysOf_dictSet_ext res g (.vlist (filterEach items subs))
          obtain ⟨e2, he2⟩ := ih (dictSet res g (.vlist (filterEach items subs)))
          exact ⟨e1 ++ e2, by rw [he2, he1, List.append_assoc]⟩
        | vnull => exact ih res
        | vbool b => exact ih res
        | vint n => exact ih res
        | vstr s => exact ih res
      | none => exact ih res

/-- C4 counterexample: for the record `{a: {x: 1}, b: 2}` and the FieldSet
`["a.x", "b"]` (declaration order: `a` before `b`), the projection's keys come
out `["b", "a"]` — direct keys are emitted before nested-group keys, so the
declaration order is not respected. -/
theorem c4_order_cex :
    keysOf (dictOf (filterKeys
        (.vdict [("a", .vdict [("x", .vint 1)]), ("b", .vint 2)]) ["a.x", "b"]))
      = ["b", "a"]
    ∧ ("b" :: "a" :: [] : List String) ≠ ("a" :: "b" :: [] : List String) := by
  constructor
  · simp [filterKeys, nestedGroups, topLevelKeys, applyTop, applyNested, starGroup,
          copyAll, dictSet, dlookup, keysOf, dictOf, splitPath, pySplitDot,
          splitDotAux, hasDot, addGroup, filterEach, getD]
  · decide

/-- C4 amended: the projected record's keys are not in FieldSet declaration
order in general; they consist of the keys emitted by the direct-key loop
(over the set of undotted keys, modelled in first-insertion order) followed by
the nested-group keys not already present, appended in group order. -/
theorem c4_amended_direct_keys_first (d : Entries) (F : List String) :
    ∃ ext, keysOf (dictOf (filterKeys (.vdict d) F))
      = keysOf (applyTop d (topLevelKeys F) []) ++ ext := by
  rw [show dictOf (filterKeys (.vdict d) F)
      = applyNested d (nestedGroups F) (applyTop d (topLevelKeys F) []) from by
    simp [filterKeys, dictOf]]
  exact keysOf_applyNested_ext d (nestedGroups F) _

/-- C9 counterexample: with FieldSet `["k", "k.s", "*.t"]` (containing the bare
key `k` and the dotted path `k.s`) and record `{k: {s:1, t:2}}`, the result
maps `k` to the LATER wildcard group's projection `{t: 2}`, not to `k`'s own
nested-group result `{s: 1}` as the claim states. -/
theorem c9_overlap_cex :
    dlookup (dictOf (filterKeys
        (.vdict [("k", .vdict [("s", .vint 1), ("t", .vint 2)])]) ["k", "k.s", "*.t"])) "k"
      = some (.vdict [("t", .vint 2)])
    ∧ filterKeys (.vdict [("s", .vint 1), ("t", .vint 2)]) ["s"]
      = .vdict [("s", .vint 1)]
    ∧ (Value.vdict [("t", .vint 2)]) ≠ (Value.vdict [("s", .vint 1)]) := by
  refine ⟨?_, ?_, ?_⟩
  · simp [filterKeys, nestedGroups, topLevelKeys, applyTop, applyNested, starGroup,
          copyAll, dictSet, dlookup, keysOf, dictOf, splitPath, pySplitDot,
          splitDotAux, hasDot, addGroup, filterEach, getD, joinDot]
  · simp [filterKeys, nestedGroups, topLevelKeys, applyTop, applyNested, starGroup,
          copyAll, dictSet, dlookup, keysOf, dictOf, splitPath, pySplitDot,
          splitDotAux, hasDot, addGroup, filterEach, getD, joinDot]
  · simp

/-- C9 amended: when a FieldSet contains both the bare key `k` and dotted
paths under `k`, the projected record maps `k` to the result of the LAST
group that covers `k` (k's own group, or a later wildcard group's sub-paths)
applied to `r[k]` when `r[k]` is a mapping or sequence, and to the verbatim
copy of the scalar `r[k]` otherwise; only in the absence of a later wildcard
group is this `k`'s own recursively projected sub-record. -/
theorem c9_amended_last_group_wins (d : Entries) (F : List String) (k : String)
    (subs : List String) (v : Value)
    (hnd : nodupKeysB d = true)
    (ht : (topLevelKeys F).contains k = true)
    (hg : lastSub (nestedGroups F) k = some subs)
    (hv : dlookup d k = some v) :
    dlookup (dictOf (filterKeys (.vdict d) F)) k = some ((filtSub v subs).getD v) := by
  rw [filterKeys_dict_lookup d hnd, nestedW_shape, hv, hg]
  have ht2 : k ∈ topLevelKeys F := by simpa using ht
  cases hfs : filtSub v subs with
  | some w => simp [hfs]
  | none => simp [hfs, topW, hv, ht2]

/-- C9 witness: the amended statement evaluated on the counterexample record,
where the last covering group is the wildcard group with sub-paths `["t"]`. -/
theorem c9_amended_last_group_wins_witness :
    dlookup (dictOf (filterKeys
        (.vdict [("k", .vdict [("s", .vint 1), ("t", .vint 2)])]) ["k", "k.s", "*.t"])) "k"
      = some ((filtSub (.vdict [("s", .vint 1), ("t", .vint 2)]) ["t"]).getD
          (.vdict [("s", .vint 1), ("t", .vint 2)])) :=
  c9_amended_last_group_wins
    [("k", .vdict [("s", .vint 1), ("t", .vint 2)])] ["k", "k.s", "*.t"] "k" ["t"]
    (.vdict [("s", .vint 1), ("t", .vint 2)])
    (by decide) (by decide) (by decide) (by simp [dlookup])

theorem dlookup_mem {d : Entries} {k : String} {v : Value}
    (h : dlookup d k = some v) : (k, v) ∈ d := by
  induction d with
  | nil => simp [dlookup] at h
  | cons hd tl ih =>
    obtain ⟨k0, v0⟩ := hd
    by_cases h0 : k0 = k
    · subst h0
      simp [dlookup] at h
      subst h
      exact List.mem_cons_self _ _
    · simp [dlookup, h0] at h
      exact List.mem_cons_of_mem _ (ih h)

theorem nodup_dlookup_mem {a : Entries} {k : String} {v : Value}
    (hn : nodupKeysB a = true) (hm : (k, v) ∈ a) : dlookup a k = some v := by
  induction a with
  | nil => cases hm
  | cons hd tl ih =>
    obtain ⟨k0, v0⟩ := hd
    obtain ⟨hnc, hnd⟩ := nodupKeysB_cons hn
    rcases List.mem_cons.1 hm with he | hm2
    · obtain ⟨h1, h2⟩ := Prod.mk.injEq .. ▸ he
      subst h1
      subst h2
      simp [dlookup]
    · have hne : k ≠ k0 := by
        intro he
        subst he
        have hck : containsKey tl k = true := by
          have : k ∈ keysOf tl := List.mem_map_of_mem Prod.fst hm2
          exact containsKey_iff_mem.2 this
        rw [hck] at hnc
        cases hnc
      have : ¬ k0 = k := fun he => hne he.symm
      simp [dlookup, this]
      exact ih hnd hm2

theorem WFb_vdict_parts {d : Entries} (h : WFb (.vdict d) = true) :
    nodupKeysB d = true ∧ WFbDict d = true := by
  simp [WFb] at h
  exact h

theorem WFb_vlist_eq (items : List Value) : WFb (.vlist items) = WFbList items := by
  simp [WFb]

theorem WFbDict_mem {d : Entries} {k : String} {v : Value}
    (h : WFbDict d = true) (hm : (k, v) ∈ d) : WFb v = true := by
  induction d with
  | nil => cases hm
  | cons hd tl ih =>
    obtain ⟨k0, v0⟩ := hd
    simp [WFbDict] at h
    rcases List.mem_cons.1 hm with he | hm2
    · obtain ⟨h1, h2⟩ := Prod.mk.injEq .. ▸ he
      subst h2
      exact h.1
    · exact ih h.2 hm2

theorem WFbList_mem {items : List Value} {x : Value}
    (h : WFbList items = true) (hm : x ∈ items) : WFb x = true := by
  induction items with
  | nil => cases hm
  | cons y tl ih =>
    simp [WFbList] at h
    rcases List.mem_cons.1 hm with he | hm2
    · subst he
      exact h.1
    · exact ih h.2 hm2

theorem applyTop_nil (T : List String) (res : Entries) : applyTop [] T res = res := by
  induction T generalizing res with
  | nil => rfl
  | cons t rest ih => by_cases ht : t = "*" <;> simp [applyTop, copyAll, dlookup, ht, ih]

theorem applyNested_nil (G : List (String × List String)) (res : Entries) :
    applyNested [] G res = res := by
  induction G generalizing res with
  | nil => simp [applyNested]
  | cons hd rest ih =>
    obtain ⟨g, subs⟩ := hd
    by_cases hg : g = "*" <;> simp [applyNested, starGroup, dlookup, hg, ih]

theorem filterKeys_empty_dict (F : List String) : filterKeys (.vdict []) F = .vdict [] := by
  simp [filterKeys, applyTop_nil, applyNested_nil]

theorem pyEqb_vdict (A B : Entries) :
    pyEqb (.vdict A) (.vdict B)
      = (pyEqbDictSub A B && B.all (fun kv => containsKey A kv.1)) := by
  simp [pyEqb]

theorem pyEqb_vlist (A B : List Value) : pyEqb (.vlist A) (.vlist B) = pyEqbList A B := by
  simp [pyEqb]

theorem pyEqb_dict_nil : pyEqb (.vdict []) (.vdict []) = true := by
  simp [pyEqb_vdict, pyEqbDictSub]

theorem pyEqbDictSub_of_forall {A B : Entries}
    (h : ∀ kv ∈ A, ∃ w, dlookup B kv.1 = some w ∧ pyEqb kv.2 w = true) :
    pyEqbDictSub A B = true := by
  induction A with
  | nil => simp [pyEqbDictSub]
  | cons hd tl ih =>
    obtain ⟨k, v⟩ := hd
    obtain ⟨w, hw1, hw2⟩ := h (k, v) (List.mem_cons_self _ _)
    simp [pyEqbDictSub, hw1, hw2]
    exact ih (fun kv hkv => h kv (List.mem_cons_of_mem _ hkv))

theorem pyEqbList_refl_of (items : List Value)
    (h : ∀ x ∈ items, pyEqb x x = true) : pyEqbList items items = true := by
  induction items with
  | nil => simp [pyEqbList]
  | cons x tl ih =>
    simp [pyEqbList, h x (List.mem_cons_self _ _)]
    exact ih (fun y hy => h y (List.mem_cons_of_mem _ hy))

theorem pyEqb_refl_aux :
    ∀ n : Nat, ∀ v : Value, sizeOf v ≤ n → WFb v = true → pyEqb v v = true := by
  intro n
  induction n using Nat.strong_induction_on with
  | _ n ih =>
    intro v hs hw
    match v with
    | .vnull => simp [pyEqb]
    | .vbool b => simp [pyEqb]
    | .vint m => simp [pyEqb]
    | .vstr s => simp [pyEqb]
    | .vlist items =>
      rw [pyEqb_vlist]
      apply pyEqbList_refl_of
      intro x hx
      have hsx : sizeOf x < n := by
        have h1 := List.sizeOf_lt_of_mem hx
        have h2 : sizeOf (Value.vlist items) ≤ n := hs
        simp at h2
        omega
      exact ih (sizeOf x) hsx x le_rfl (WFbList_mem (WFb_vlist_eq items ▸ hw) hx)
    | .vdict a =>
      obtain ⟨hnd, hwd⟩ := WFb_vdict_parts hw
      rw [pyEqb_vdict]
      rw [Bool.and_eq_true]
      refine ⟨?_, ?_⟩
      · apply pyEqbDictSub_of_forall
        intro kv hkv
        refine ⟨kv.2, nodup_dlookup_mem hnd hkv, ?_⟩
        have hsx : sizeOf kv.2 < n := by
          have h1 := List.sizeOf_lt_of_mem hkv
          have h2 : sizeOf (Value.vdict a) ≤ n := hs
          obtain ⟨k0, v0⟩ := kv
          simp at h1 h2 ⊢
          omega
        exact ih (sizeOf kv.2) hsx kv.2 le_rfl (WFbDict_mem hwd hkv)
      · refine List.all_eq_true.2 ?_
        intro kv hkv
        have : dlookup a kv.1 = some kv.2 := nodup_dlookup_mem hnd hkv
        simp [containsKey, this]

theorem pyEqb_refl (v : Value) (hw : WFb v = true) : pyEqb v v = true :=
  pyEqb_refl_aux (sizeOf v) v le_rfl hw

theorem pyEqb_dict_of_pointwise {A B : Entries}
    (hA : nodupKeysB A = true) (hB : nodupKeysB B = true)
    (h : ∀ q, (dlookup A q = none ∧ dlookup B q = none)
          ∨ (∃ a b, dlookup A q = some a ∧ dlookup B q = some b ∧ pyEqb a b = true)) :
    pyEqb (.vdict A) (.vdict B) = true := by
  rw [pyEqb_vdict]
  rw [Bool.and_eq_true]
  refine ⟨?_, ?_⟩
  · apply pyEqbDictSub_of_forall
    intro kv hkv
    have hlk : dlookup A kv.1 = some kv.2 := nodup_dlookup_mem hA hkv
    rcases h kv.1 with ⟨h1, _⟩ | ⟨a, b, h1, h2, h3⟩
    · rw [hlk] at h1
      cases h1
    · rw [hlk] at h1
      injection h1 with h1
      subst h1
      exact ⟨b, h2, h3⟩
  · refine List.all_eq_true.2 ?_
    intro kv hkv
    have hlk : dlookup B kv.1 = some kv.2 := nodup_dlookup_mem hB hkv
    rcases h kv.1 with ⟨_, h2⟩ | ⟨a, b, h1, h2, h3⟩
    · rw [hlk] at h2
      cases h2
    · simp [containsKey, h1]

theorem topW_some_of_cond (x : Entries) (T : List String) (q : String)
    (hc : (T.contains "*" || T.contains q) = true) :
    topW x T q = dlookup x q := by
  unfold topW
  rw [if_pos hc]

theorem topW_none_of_cond (x : Entries) (T : List String) (q : String)
    (hc : ¬ (T.contains "*" || T.contains q) = true) :
    topW x T q = none := by
  unfold topW
  rw [if_neg hc]

theorem filterKeys_idem_aux :
    ∀ n : Nat, ∀ v : Value, sizeOf v ≤ n → WFb v = true →
    ∀ F : List String, pyEqb (filterKeys (filterKeys v F) F) (filterKeys v F) = true := by
  intro n
  induction n using Nat.strong_induction_on with
  | _ n ih =>
    have FEI : ∀ (items : List Value) (subs : List String), sizeOf items ≤ n →
        WFbList items = true →
        pyEqbList (filterEach (filterEach items subs) subs) (filterEach items subs) = true := by
      intro items subs
      induction items with
      | nil =>
        intro _ _
        simp [filterEach, pyEqbList]
      | cons x tl ihl =>
        intro hsi hwl
        have hstl : sizeOf tl ≤ n := by
          simp at hsi
          omega
        have hsx : sizeOf x < n := by
          simp at hsi
          omega
        have hwx : WFb x = true := by
          simp [WFbList] at hwl
          exact hwl.1
        have hwtl : WFbList tl = true := by
          simp [WFbList] at hwl
          exact hwl.2
        cases x with
        | vdict dd =>
          rw [show filterEach (Value.vdict dd :: tl) subs
              = filterKeys (Value.vdict dd) subs :: filterEach tl subs from by
            simp [filterEach]]
          obtain ⟨P, hP⟩ : ∃ P, filterKeys (Value.vdict dd) subs = Value.vdict P :=
            ⟨applyNested dd (nestedGroups subs) (applyTop dd (topLevelKeys subs) []),
             by simp [filterKeys]⟩
          rw [hP]
          rw [show filterEach (Value.vdict P :: filterEach tl subs) subs
              = filterKeys (Value.vdict P) subs :: filterEach (filterEach tl subs) subs from by
            simp [filterEach]]
          rw [show pyEqbList
                (filterKeys (Value.vdict P) subs :: filterEach (filterEach tl subs) subs)
                (Value.vdict P :: filterEach tl subs)
              = (pyEqb (filterKeys (Value.vdict P) subs) (Value.vdict P)
                 && pyEqbList (filterEach (filterEach tl subs) subs) (filterEach tl subs)) from by
            simp [pyEqbList]]
          rw [Bool.and_eq_true]
          constructor
          · rw [← hP]
            exact ih (sizeOf (Value.vdict dd)) hsx (Value.vdict dd) le_rfl hwx subs
          · exact ihl hstl hwtl
        | vnull =>
          rw [show filterEach (Value.vnull :: tl) subs = filterEach tl subs from by
            simp [filterEach]]
          exact ihl hstl hwtl
        | vbool b =>
          rw [show filterEach (Value.vbool b :: tl) subs = filterEach tl subs from by
            simp [filterEach]]
          exact ihl hstl hwtl
        | vint m =>
          rw [show filterEach (Value.vint m :: tl) subs = filterEach tl subs from by
            simp [filterEach]]
          exact ihl hstl hwtl
        | vstr s =>
          rw [show filterEach (Value.vstr s :: tl) subs = filterEach tl subs from by
            simp [filterEach]]
          exact ihl hstl hwtl
        | vlist items2 =>
          rw [show filterEach (Value.vlist items2 :: tl) subs = filterEach tl subs from by
            simp [filterEach]]
          exact ihl hstl hwtl
    intro v hs hw F
    cases v with
    | vnull =>
      rw [show filterKeys Value.vnull F = Value.vdict [] from by simp [filterKeys]]
      rw [filterKeys_empty_dict]
      exact pyEqb_dict_nil
    | vbool b =>
      rw [show filterKeys (Value.vbool b) F = Value.vdict [] from by simp [filterKeys]]
      rw [filterKeys_empty_dict]
      exact pyEqb_dict_nil
    | vint m =>
      rw [show filterKeys (Value.vint m) F = Value.vdict [] from by simp [filterKeys]]
      rw [filterKeys_empty_dict]
      exact pyEqb_dict_nil
    | vstr s =>
      rw [show filterKeys (Value.vstr s) F = Value.vdict [] from by simp [filterKeys]]
      rw [filterKeys_empty_dict]
      exact pyEqb_dict_nil
    | vlist items =>
      rw [show filterKeys (Value.vlist items) F = Value.vlist (filterEach items F) from by
        simp [filterKeys]]
      rw [show filterKeys (Value.vlist (filterEach items F)) F
          = Value.vlist (filterEach (filterEach items F) F) from by simp [filterKeys]]
      rw [pyEqb_vlist]
      refine FEI items F ?_ (WFb_vlist_eq items ▸ hw)
      have h2 : sizeOf (Value.vlist items) ≤ n := hs
      simp at h2
      omega
    | vdict d =>
      obtain ⟨hnd, hwd⟩ := WFb_vdict_parts hw
      obtain ⟨P0, hfP⟩ : ∃ P, filterKeys (Value.vdict d) F = Value.vdict P :=
        ⟨applyNested d (nestedGroups F) (applyTop d (topLevelKeys F) []),
         by simp [filterKeys]⟩
      have hnP : nodupKeysB P0 = true := by
        have h0 := nodup_filterKeys_dict d F
        rw [hfP] at h0
        simpa [dictOf] using h0
      rw [hfP]
      obtain ⟨Q, hfQ⟩ : ∃ Q, filterKeys (Value.vdict P0) F = Value.vdict Q :=
        ⟨applyNested P0 (nestedGroups F) (applyTop P0 (topLevelKeys F) []),
         by simp [filterKeys]⟩
      have hnQ : nodupKeysB Q = true := by
        have h0 := nodup_filterKeys_dict P0 F
        rw [hfQ] at h0
        simpa [dictOf] using h0
      rw [hfQ]
      apply pyEqb_dict_of_pointwise hnQ hnP
      intro q
      have hcP : dlookup P0 q
          = oelse ((dlookup d q).bind
              (fun v0 => (lastSub (nestedGroups F) q).bind (fun s => filtSub v0 s)))
              (topW d (topLevelKeys F) q) := by
        have h0 := filterKeys_dict_lookup d hnd F q
        rw [hfP, nestedW_shape] at h0
        simpa [dictOf] using h0
      have hcQ : dlookup Q q
          = oelse ((dlookup P0 q).bind
              (fun v0 => (lastSub (nestedGroups F) q).bind (fun s => filtSub v0 s)))
              (topW P0 (topLevelKeys F) q) := by
        have h0 := filterKeys_dict_lookup P0 hnP F q
        rw [hfQ, nestedW_shape] at h0
        simpa [dictOf] using h0
      cases hdq : dlookup d q with
      | none =>
        have hP0q : dlookup P0 q = none := by
          rw [hcP, hdq, topW_none_of_lookup_none d _ q hdq]
          rfl
        left
        refine ⟨?_, hP0q⟩
        rw [hcQ, hP0q, topW_none_of_lookup_none P0 _ q hP0q]
        rfl
      | some v0 =>
        have hwv0 : WFb v0 = true := WFbDict_mem hwd (dlookup_mem hdq)
        have hsv0 : sizeOf v0 < n := by
          have h2 := dlookup_sizeOf hdq
          have h3 : sizeOf (Value.vdict d) ≤ n := hs
          simp at h3
          omega
        cases hls : lastSub (nestedGroups F) q with
        | none =>
          by_cases hcond :
              ((topLevelKeys F).contains "*" || (topLevelKeys F).contains q) = true
          · have hP0q : dlookup P0 q = some v0 := by
              rw [hcP, hdq, hls, topW_some_of_cond _ _ _ hcond, hdq]
              simp
            right
            refine ⟨v0, v0, ?_, hP0q, pyEqb_refl v0 hwv0⟩
            rw [hcQ, hP0q, hls, topW_some_of_cond _ _ _ hcond, hP0q]
            simp
          · have hP0q : dlookup P0 q = none := by
              rw [hcP, hdq, hls, topW_none_of_cond _ _ _ hcond]
              simp
            left
            refine ⟨?_, hP0q⟩
            rw [hcQ, hP0q, topW_none_of_cond _ _ _ hcond]
            simp
        | some subs =>
          cases hfs : filtSub v0 subs with
          | none =>
            by_cases hcond :
                ((topLevelKeys F).contains "*" || (topLevelKeys F).contains q) = true
            · have hP0q : dlookup P0 q = some v0 := by
                rw [hcP, hdq, hls, topW_some_of_cond _ _ _ hcond, hdq]
                simp [hfs]
              right
              refine ⟨v0, v0, ?_, hP0q, pyEqb_refl v0 hwv0⟩
              rw [hcQ, hP0q, hls, topW_some_of_cond _ _ _ hcond, hP0q]
              simp [hfs]
            · have hP0q : dlookup P0 q = none := by
                rw [hcP, hdq, hls, topW_none_of_cond _ _ _ hcond]
                simp [hfs]
              left
              refine ⟨?_, hP0q⟩
              rw [hcQ, hP0q, topW_none_of_cond _ _ _ hcond]
              simp
          | some w =>
            have hP0q : dlookup P0 q = some w := by
              rw [hcP, hdq, hls]
              simp [hfs]
            right
            cases v0 with
            | vdict dd =>
              have hw1 : filterKeys (Value.vdict dd) subs = w := by
                simp [filtSub] at hfs
                exact hfs
              obtain ⟨PW, hPW⟩ : ∃ PW, w = Value.vdict PW := by
                rw [← hw1]
                exact ⟨applyNested dd (nestedGroups subs) (applyTop dd (topLevelKeys subs) []),
                  by simp [filterKeys]⟩
              have hQq : dlookup Q q = some (filterKeys w subs) := by
                rw [hcQ, hP0q, hls, hPW]
                simp [filtSub]
              refine ⟨filterKeys w subs, w, hQq, hP0q, ?_⟩
              rw [← hw1]
              exact ih (sizeOf (Value.vdict dd)) hsv0 (Value.vdict dd) le_rfl hwv0 subs
            | vlist items =>
              have hw1 : Value.vlist (filterEach items subs) = w := by
                simp [filtSub] at hfs
                exact hfs
              have hQq : dlookup Q q
                  = some (Value.vlist (filterEach (filterEach items subs) subs)) := by
                rw [hcQ, hP0q, hls, ← hw1]
                simp [filtSub]
              refine ⟨_, w, hQq, hP0q, ?_⟩
              rw [← hw1, pyEqb_vlist]
              refine FEI items subs ?_ (WFb_vlist_eq items ▸ hwv0)
              have h4 : sizeOf (Value.vlist items) < n := hsv0
              simp at h4
              omega
            | vnull => simp [filtSub] at hfs
            | vbool b => simp [filtSub] at hfs
            | vint m => simp [filtSub] at hfs
            | vstr s => simp [filtSub] at hfs

/-- C1: projection is idempotent on its own output.  For every well-formed
record `r` (every dict in it has distinct keys, as is automatic for Python
dicts/JSON) and every FieldSet `F`, `filter_keys(filter_keys(r, F), F)` equals
`filter_keys(r, F)` under Python `==` (dicts compared as unordered maps,
lists pointwise), which `pyEqb` models. -/
theorem c1_projection_idempotent (r : Value) (hw : WFb r = true) (F : List String) :
    pyEqb (filterKeys (filterKeys r F) F) (filterKeys r F) = true :=
  filterKeys_idem_aux (sizeOf r) r le_rfl hw F

/-- C1 witness: idempotence evaluated at a concrete record and FieldSet
exercising direct keys, a nested group, a wildcard group, and a list value. -/
theorem c1_projection_idempotent_witness :
    pyEqb
      (filterKeys
        (filterKeys
          (.vdict [("a", .vdict [("x", .vint 1), ("y", .vint 2)]), ("b", .vint 3),
                   ("c", .vlist [.vdict [("z", .vint 1)], .vstr "s"])])
          ["b", "a.x", "*.z", "c.z"])
        ["b", "a.x", "*.z", "c.z"])
      (filterKeys
        (.vdict [("a", .vdict [("x", .vint 1), ("y", .vint 2)]), ("b", .vint 3),
                 ("c", .vlist [.vdict [("z", .vint 1)], .vstr "s"])])
        ["b", "a.x", "*.z", "c.z"])
      = true :=
  c1_projection_idempotent
    (.vdict [("a", .vdict [("x", .vint 1), ("y", .vint 2)]), ("b", .vint 3),
             ("c", .vlist [.vdict [("z", .vint 1)], .vstr "s"])])
    (by simp [WFb, WFbList, WFbDict, nodupKeysB, containsKey, dlookup])
    ["b", "a.x", "*.z", "c.z"]
